import Mathlib

/-!
Shallow embedding of the study-planner scheduling engine
(`src/utils/aiScheduler.ts`) and verification of its specification.

Modelling conventions:
* JavaScript numbers carrying hours, progress percentages and exam
  timestamps are modelled as `ℚ`.
* Wall-clock "now" is a rational number of days since an arbitrary epoch;
  the calendar-date part of a timestamp (`toISOString().split('T')[0]`)
  is its floor `⌊now⌋ : ℤ`, and ISO date strings compare exactly like
  these integers.  `Date.setDate(getDate() + k)` on a timestamp with
  date part `d` yields date part `d + k`.
* Synthetic identifier strings interpolate the integer date via
  `toString`, mirroring the interpolation of the ISO date string.
* `Array.prototype.sort` with a comparator `cmp` is modelled by the
  stable `List.insertionSort` with the relation `cmp a b ≤ 0`; the
  scheduler's comparator is consistent (it is a difference of key
  values), for which every stable comparison sort yields the same list.
-/

/-- difficulty: "easy" | "medium" | "hard" -/
inductive Difficulty where
  | easy
  | medium
  | hard
  deriving DecidableEq, Repr

/-- interface Topic -/
structure Topic where
  id : String
  title : String
  estimatedHours : ℚ
  difficulty : Difficulty
  completed : Bool
  progress : ℚ
  subjectId : String
  subjectName : String
  youtubeLinks : Option (List String)
  notes : Option String
  deriving DecidableEq, Repr

/-- interface Subject.  `examDate` is the exam's timestamp in days. -/
structure Subject where
  id : String
  name : String
  examDate : ℚ
  topics : List Topic
  dailyHours : ℚ
  progress : ℚ
  deriving DecidableEq, Repr

/-- interface DailyTask.  `date` is the integer calendar day. -/
structure DailyTask where
  id : String
  date : Int
  topicId : String
  topicTitle : String
  subjectName : String
  estimatedHours : ℚ
  difficulty : Difficulty
  completed : Bool
  actualHours : Option ℚ
  youtubeLinks : Option (List String)
  notes : Option String
  deriving DecidableEq, Repr

/-- interface SchedulePlan -/
structure SchedulePlan where
  dailyTasks : List DailyTask
  totalHours : ℚ
  daysUntilExams : Int
  averageHoursPerDay : ℚ
  recommendations : List String
  deriving DecidableEq, Repr

/-- private difficultyWeights = \x7b easy: 1, medium: 1.5, hard: 2 \x7d -/
def difficultyWeights : Difficulty → ℚ
  | .easy => 1
  | .medium => 3/2
  | .hard => 2

/-- AIScheduler.extractTopicsFromSubjects: flatten every subject's topics,
stamping the owning subject's id and name and scaling `estimatedHours`
by the remaining progress fraction. -/
def extractTopicsFromSubjects (subjects : List Subject) : List Topic :=
  subjects.flatMap fun subject =>
    subject.topics.map fun topic =>
      { topic with
        subjectId := subject.id
        subjectName := subject.name
        estimatedHours := topic.estimatedHours * (100 - topic.progress) / 100 }

/-- The comparator body of AIScheduler.prioritizeTasks:
`difficultyScore * 2 + hoursScore`. -/
def compareTopics (a b : Topic) : ℚ :=
  (difficultyWeights b.difficulty - difficultyWeights a.difficulty) * 2
    + (b.estimatedHours - a.estimatedHours)

/-- The sort relation induced by the comparator: `a` sorts no later than `b`
iff the comparator is ≤ 0. -/
def topicLe (a b : Topic) : Prop := compareTopics a b ≤ 0

instance : DecidableRel topicLe :=
  fun a b => inferInstanceAs (Decidable (compareTopics a b ≤ 0))

/-- AIScheduler.prioritizeTasks, modelling the stable
`Array.prototype.sort` on the comparator. -/
def prioritizeTasks (topics : List Topic) : List Topic :=
  List.insertionSort topicLe topics

/-- The `allTopics.filter(topic => !topic.completed)` step of
AIScheduler.generateSchedule. -/
def incompleteTopics (subjects : List Subject) : List Topic :=
  (extractTopicsFromSubjects subjects).filter fun topic => !topic.completed

/-- Math.min over the subjects' exam timestamps (the argument list is
nonempty whenever this is reached; the `[]` value is never used by
`generateSchedule`). -/
def earliestExam (subjects : List Subject) : ℚ :=
  match subjects.map Subject.examDate with
  | [] => 0
  | d :: ds => ds.foldl min d

/-- The record computed by AIScheduler.calculateStudyPlan. -/
structure StudyPlanParams where
  daysUntilExams : Int
  totalDailyHours : ℚ
  averageHoursPerDay : ℚ
  deriving DecidableEq, Repr

/-- AIScheduler.calculateStudyPlan. -/
def calculateStudyPlan (now : ℚ) (subjects : List Subject) : StudyPlanParams :=
  let daysUntilExams : Int := max 1 ⌈earliestExam subjects - now⌉
  let totalDailyHours : ℚ := (subjects.map Subject.dailyHours).sum
  { daysUntilExams := daysUntilExams
    totalDailyHours := totalDailyHours
    averageHoursPerDay := totalDailyHours / (subjects.length : ℚ) }

/-- The DailyTask literal built inside AIScheduler.generateDailyTasks. -/
def mkDailyTask (topic : Topic) (date : Int) (hoursToAllocate : ℚ) : DailyTask :=
  { id := topic.id ++ "-" ++ toString date
    date := date
    topicId := topic.id
    topicTitle := topic.title
    subjectName := topic.subjectName
    estimatedHours := hoursToAllocate
    difficulty := topic.difficulty
    completed := false
    actualHours := none
    youtubeLinks := topic.youtubeLinks
    notes := topic.notes }

/-- The inner `for` loop of AIScheduler.generateDailyTasks: scan the
working list in order while `dailyHoursRemaining > 0`; allocate
`min(topic.estimatedHours, dailyHoursRemaining)` when that is ≥ 0.5,
decrement the topic, and splice it out when its hours drop to ≤ 0.
Returns `(dayTasks, surviving working list, topics spliced out this day
with their final mutated estimatedHours)`; the third component records
the post-loop state of the spliced-out topic objects, which the source
keeps reachable through the `incompleteTasks` array. -/
def allocateDay (date : Int) : ℚ → List Topic → List DailyTask × List Topic × List Topic
  | _, [] => ([], [], [])
  | dailyHoursRemaining, topic :: rest =>
    if 0 < dailyHoursRemaining then
      let hoursToAllocate := min topic.estimatedHours dailyHoursRemaining
      if 1/2 ≤ hoursToAllocate then
        let task := mkDailyTask topic date hoursToAllocate
        let updated := { topic with estimatedHours := topic.estimatedHours - hoursToAllocate }
        let next := allocateDay date (dailyHoursRemaining - hoursToAllocate) rest
        if updated.estimatedHours ≤ 0 then
          (task :: next.1, next.2.1, updated :: next.2.2)
        else
          (task :: next.1, updated :: next.2.1, next.2.2)
      else
        let next := allocateDay date dailyHoursRemaining rest
        (next.1, topic :: next.2.1, next.2.2)
    else
      ([], topic :: rest, [])

/-- The `while` loop of AIScheduler.generateDailyTasks: one `allocateDay`
per calendar day while topics remain and `currentDay < daysUntilExams`
(`daysLeft` counts the days still inside the horizon).  Accumulates
`(dailyTasks, final working list, all spliced-out topic states)`. -/
def generateDailyTasksAux (now : ℚ) (totalDailyHours : ℚ) :
    Nat → Nat → List Topic → List DailyTask × List Topic × List Topic
  | 0, _, remainingTopics => ([], remainingTopics, [])
  | _ + 1, _, [] => ([], [], [])
  | daysLeft + 1, currentDay, topic :: rest =>
    let date : Int := ⌊now⌋ + currentDay
    let day := allocateDay date totalDailyHours (topic :: rest)
    let next := generateDailyTasksAux now totalDailyHours daysLeft (currentDay + 1) day.2.1
    (day.1 ++ next.1, next.2.1, day.2.2 ++ next.2.2)

/-- AIScheduler.generateDailyTasks (task list only). -/
def generateDailyTasks (now : ℚ) (topics : List Topic) (studyPlan : StudyPlanParams) :
    List DailyTask :=
  (generateDailyTasksAux now studyPlan.totalDailyHours studyPlan.daysUntilExams.toNat 0 topics).1

/-- AIScheduler.generateRecommendations, with the recommendation pushes
in source order. -/
def generateRecommendations (subjects : List Subject) (studyPlan : StudyPlanParams) :
    List String :=
  let timeRecs : List String :=
    if studyPlan.averageHoursPerDay > 8 then
      ["Consider reducing daily study hours to avoid burnout. Quality over quantity!"]
    else if studyPlan.averageHoursPerDay < 2 then
      ["Consider increasing daily study time to ensure adequate preparation."]
    else []
  let hardTopics :=
    (subjects.flatMap Subject.topics).filter fun t =>
      decide (t.difficulty = Difficulty.hard) && !t.completed
  let hardRecs : List String :=
    if hardTopics.length > 0 then
      ["Start with difficult topics when your mind is fresh, typically in the morning."]
    else []
  let examRecs : List String :=
    if studyPlan.daysUntilExams < 14 then
      ["Focus on revision and practice problems rather than learning new concepts."]
    else if studyPlan.daysUntilExams > 60 then
      ["You have plenty of time! Focus on building strong foundations in each topic."]
    else []
  let behindSchedule := subjects.filter fun s => decide (s.progress < 30)
  let behindRecs : List String :=
    match behindSchedule with
    | [] => []
    | s :: _ => ["Prioritize " ++ s.name ++ " - you\x27re behind schedule on this subject."]
  timeRecs ++ hardRecs ++ examRecs ++ behindRecs ++
    ["Use the Pomodoro Technique: 25 minutes focused study, 5 minutes break.",
     "Review yesterday\x27s topics for 10 minutes before starting new material."]

/-- The allocator call made by AIScheduler.generateSchedule: the
prioritized incomplete topics pushed through the daily loop. -/
def scheduleAllocation (now : ℚ) (subjects : List Subject) :
    List DailyTask × List Topic × List Topic :=
  generateDailyTasksAux now (calculateStudyPlan now subjects).totalDailyHours
    (calculateStudyPlan now subjects).daysUntilExams.toNat 0
    (prioritizeTasks (incompleteTopics subjects))


/-- AIScheduler.generateSchedule.

The source computes `totalHours` as
`incompleteTasks.reduce((sum, task) => sum + task.estimatedHours, 0)`
in the returned object literal, which is evaluated **after**
`generateDailyTasks` has run.  `prioritizeTasks` sorts the
`incompleteTasks` array in place and `generateDailyTasks` copies the
array but not the topic objects, so the allocator's destructive updates
(`topic.estimatedHours -= hoursToAllocate`, splice on completion) act on
the very objects the reduce later visits.  At that point each object's
`estimatedHours` holds its final unallocated remainder, and the objects
are, in some order, exactly the surviving working list plus the
spliced-out topics; the sum below ranges over that collection. -/
def generateSchedule (now : ℚ) (subjects : List Subject) : SchedulePlan :=
  let incompleteTasks := incompleteTopics subjects
  if incompleteTasks.length = 0 then
    { dailyTasks := []
      totalHours := 0
      daysUntilExams := 0
      averageHoursPerDay := 0
      recommendations := ["All topics completed! Great job!"] }
  else
    let studyPlan := calculateStudyPlan now subjects
    let alloc := scheduleAllocation now subjects
    { dailyTasks := alloc.1
      totalHours := ((alloc.2.1 ++ alloc.2.2).map Topic.estimatedHours).sum
      daysUntilExams := studyPlan.daysUntilExams
      averageHoursPerDay := studyPlan.averageHoursPerDay
      recommendations := generateRecommendations subjects studyPlan }

/-- The `activeTasks` filter of AIScheduler.rescheduleAfterMissedTasks:
drop every task whose identifier matches a missed task. -/
def activeTasks (currentPlan : SchedulePlan) (missedTasks : List DailyTask) :
    List DailyTask :=
  currentPlan.dailyTasks.filter fun task =>
    !(missedTasks.any fun missed => missed.id == task.id)

/-- The `futureTasks` filter of AIScheduler.rescheduleAfterMissedTasks:
tasks dated strictly after today. -/
def futureTasks (today : Int) (tasks : List DailyTask) : List DailyTask :=
  tasks.filter fun task => decide (task.date > today)

/-- AIScheduler.rescheduleAfterMissedTasks.  `today` in the source is the
ISO date part of the current instant, modelled as `⌊now⌋`; the string
comparison `task.date > today` on equal-format ISO dates is the integer
comparison.  The in-place `estimatedHours += additionalHoursPerDay` on
the aliased future tasks is the conditional map below. -/
def rescheduleAfterMissedTasks (now : ℚ) (currentPlan : SchedulePlan)
    (missedTasks : List DailyTask) : SchedulePlan :=
  let today : Int := ⌊now⌋
  let active := activeTasks currentPlan missedTasks
  let future := futureTasks today active
  let totalMissedHours := (missedTasks.map DailyTask.estimatedHours).sum
  let adjustedTasks :=
    if future.length > 0 then
      let additionalHoursPerDay := totalMissedHours / (future.length : ℚ)
      active.map fun task =>
        if task.date > today then
          { task with estimatedHours := task.estimatedHours + additionalHoursPerDay }
        else task
    else active
  { currentPlan with
    dailyTasks := adjustedTasks
    recommendations :=
      ["Don\x27t worry about missed tasks - I\x27ve redistributed them to future days.",
       "Stay consistent with your schedule to avoid falling behind."] ++
        currentPlan.recommendations.drop 2 }

/-- The spaced repetition intervals of AIScheduler.calculateReviewSchedule. -/
def reviewIntervals : List Int := [1, 3, 7, 14, 30]

/-- The DailyTask literal built inside AIScheduler.calculateReviewSchedule. -/
def mkReviewTask (today : Int) (topic : Topic) (interval : Int) : DailyTask :=
  { id := "review-" ++ topic.id ++ "-" ++ toString interval
    date := today + interval
    topicId := topic.id
    topicTitle := "Review: " ++ topic.title
    subjectName := topic.subjectName
    estimatedHours := max (1/4) (topic.estimatedHours * (1/10))
    difficulty := topic.difficulty
    completed := false
    actualHours := none
    youtubeLinks := topic.youtubeLinks
    notes := topic.notes }

/-- AIScheduler.calculateReviewSchedule: the nested forEach pushes, as a
fold over the completed topics. -/
def calculateReviewSchedule (now : ℚ) (completedTopics : List Topic) : List DailyTask :=
  completedTopics.foldl
    (fun reviewTasks topic => reviewTasks ++ reviewIntervals.map (mkReviewTask ⌊now⌋ topic)) []

/-! ### Basic facts about the prioritizer -/

/-- The effective priority key: the comparator is the difference of this
key, so it induces a total preorder (descending by score). -/
def scoreTopic (t : Topic) : ℚ :=
  difficultyWeights t.difficulty * 2 + t.estimatedHours

theorem compareTopics_eq (a b : Topic) :
    compareTopics a b = scoreTopic b - scoreTopic a := by
  unfold compareTopics scoreTopic
  ring

theorem topicLe_iff {a b : Topic} : topicLe a b ↔ scoreTopic b ≤ scoreTopic a := by
  unfold topicLe
  rw [compareTopics_eq]
  constructor
  · intro h
    linarith
  · intro h
    linarith

instance : IsTotal Topic topicLe := by
  constructor
  intro a b
  rw [topicLe_iff, topicLe_iff]
  exact le_total (scoreTopic b) (scoreTopic a)

instance : IsTrans Topic topicLe := by
  constructor
  intro a b c hab hbc
  rw [topicLe_iff] at hab hbc ⊢
  exact le_trans hbc hab

theorem sorted_prioritizeTasks (l : List Topic) :
    List.Sorted topicLe (prioritizeTasks l) :=
  List.sorted_insertionSort topicLe l

theorem perm_prioritizeTasks (l : List Topic) :
    (prioritizeTasks l).Perm l :=
  List.perm_insertionSort topicLe l

/-! ### Sums of hours per topic identifier -/

/-- Total `estimatedHours` of the emitted tasks whose `topicId` is `tid`. -/
def sumHoursFor (tid : String) (tasks : List DailyTask) : ℚ :=
  ((tasks.filter fun task => task.topicId == tid).map DailyTask.estimatedHours).sum

/-- Total remaining `estimatedHours` of the topics whose `id` is `tid`. -/
def estFor (tid : String) (ts : List Topic) : ℚ :=
  ((ts.filter fun t => t.id == tid).map Topic.estimatedHours).sum

theorem sumHoursFor_nil (tid : String) : sumHoursFor tid [] = 0 := rfl

theorem sumHoursFor_append (tid : String) (xs ys : List DailyTask) :
    sumHoursFor tid (xs ++ ys) = sumHoursFor tid xs + sumHoursFor tid ys := by
  simp [sumHoursFor, List.filter_append]

theorem estFor_eq_zero_of_not_mem {tid : String} {ts : List Topic}
    (h : tid ∉ ts.map Topic.id) : estFor tid ts = 0 := by
  have : ts.filter (fun t => t.id == tid) = [] := by
    apply List.filter_eq_nil_iff.mpr
    intro t ht
    simp only [beq_iff_eq]
    intro he
    exact h (he ▸ List.mem_map_of_mem Topic.id ht)
  simp [estFor, this]

theorem estFor_eq_zero_of_all_zero {tid : String} {ts : List Topic}
    (h : ∀ t ∈ ts, t.estimatedHours = 0) : estFor tid ts = 0 := by
  apply List.sum_eq_zero
  intro x hx
  simp only [List.mem_map] at hx
  obtain ⟨t, ht, rfl⟩ := hx
  exact h t (List.mem_of_mem_filter ht)

theorem estFor_perm (tid : String) {l₁ l₂ : List Topic} (h : l₁.Perm l₂) :
    estFor tid l₁ = estFor tid l₂ :=
  List.Perm.sum_eq (List.Perm.map Topic.estimatedHours (List.Perm.filter _ h))

/-- In a list whose identifiers are distinct, the id-filter at a member's
identifier picks out exactly that member. -/
theorem filter_id_eq_singleton {l : List Topic} (hnd : (l.map Topic.id).Nodup)
    {x : Topic} (hx : x ∈ l) : l.filter (fun t => t.id == x.id) = [x] := by
  induction l with
  | nil => cases hx
  | cons a rest ih =>
    simp only [List.map_cons, List.nodup_cons, List.mem_map] at hnd
    rcases List.mem_cons.mp hx with rfl | hx'
    · have hrest : rest.filter (fun t => t.id == x.id) = [] := by
        apply List.filter_eq_nil_iff.mpr
        intro t ht
        simp only [beq_iff_eq]
        intro he
        exact hnd.1 ⟨t, ht, he⟩
      simp [List.filter_cons, hrest]
    · have hne : ¬((a.id == x.id) = true) := by
        simp only [beq_iff_eq]
        intro he
        exact hnd.1 ⟨x, hx', he.symm⟩
      rw [List.filter_cons, if_neg hne]
      exact ih hnd.2 hx'

theorem estFor_eq_of_mem {l : List Topic} (hnd : (l.map Topic.id).Nodup)
    {x : Topic} (hx : x ∈ l) : estFor x.id l = x.estimatedHours := by
  simp [estFor, filter_id_eq_singleton hnd hx]

/-! ### Per-day allocator lemmas -/

theorem allocateDay_half (date : Int) :
    ∀ (r : ℚ) (ts : List Topic), ∀ task ∈ (allocateDay date r ts).1,
      1/2 ≤ task.estimatedHours := by
  intro r ts
  induction ts generalizing r with
  | nil => intro task h; simp [allocateDay] at h
  | cons topic rest ih =>
    intro task htask
    by_cases h0 : 0 < r
    · by_cases h5 : 1/2 ≤ min topic.estimatedHours r
      · by_cases hz : topic.estimatedHours - min topic.estimatedHours r ≤ 0
        · simp only [allocateDay, if_pos h0, if_pos h5, if_pos hz, List.mem_cons] at htask
          rcases htask with rfl | h
          · exact h5
          · exact ih _ task h
        · simp only [allocateDay, if_pos h0, if_pos h5, if_neg hz, List.mem_cons] at htask
          rcases htask with rfl | h
          · exact h5
          · exact ih _ task h
      · simp only [allocateDay, if_pos h0, if_neg h5] at htask
        exact ih _ task htask
    · simp [allocateDay, if_neg h0] at htask

theorem allocateDay_dates (date : Int) :
    ∀ (r : ℚ) (ts : List Topic), ∀ task ∈ (allocateDay date r ts).1,
      task.date = date := by
  intro r ts
  induction ts generalizing r with
  | nil => intro task h; simp [allocateDay] at h
  | cons topic rest ih =>
    intro task htask
    by_cases h0 : 0 < r
    · by_cases h5 : 1/2 ≤ min topic.estimatedHours r
      · by_cases hz : topic.estimatedHours - min topic.estimatedHours r ≤ 0
        · simp only [allocateDay, if_pos h0, if_pos h5, if_pos hz, List.mem_cons] at htask
          rcases htask with rfl | h
          · rfl
          · exact ih _ task h
        · simp only [allocateDay, if_pos h0, if_pos h5, if_neg hz, List.mem_cons] at htask
          rcases htask with rfl | h
          · rfl
          · exact ih _ task h
      · simp only [allocateDay, if_pos h0, if_neg h5] at htask
        exact ih _ task htask
    · simp [allocateDay, if_neg h0] at htask

theorem allocateDay_removed_zero (date : Int) :
    ∀ (r : ℚ) (ts : List Topic), ∀ t ∈ (allocateDay date r ts).2.2,
      t.estimatedHours = 0 := by
  intro r ts
  induction ts generalizing r with
  | nil => intro t h; simp [allocateDay] at h
  | cons topic rest ih =>
    intro t ht
    by_cases h0 : 0 < r
    · by_cases h5 : 1/2 ≤ min topic.estimatedHours r
      · by_cases hz : topic.estimatedHours - min topic.estimatedHours r ≤ 0
        · simp only [allocateDay, if_pos h0, if_pos h5, if_pos hz, List.mem_cons] at ht
          rcases ht with rfl | h
          · have hge : (0:ℚ) ≤ topic.estimatedHours - min topic.estimatedHours r :=
              sub_nonneg.mpr (min_le_left _ _)
            exact le_antisymm hz hge
          · exact ih _ t h
        · simp only [allocateDay, if_pos h0, if_pos h5, if_neg hz] at ht
          exact ih _ t ht
      · simp only [allocateDay, if_pos h0, if_neg h5] at ht
        exact ih _ t ht
    · simp [allocateDay, if_neg h0] at ht

theorem sumHoursFor_cons_of_pos {tid : String} (task : DailyTask) (ts : List DailyTask)
    (h : task.topicId = tid) :
    sumHoursFor tid (task :: ts) = task.estimatedHours + sumHoursFor tid ts := by
  simp [sumHoursFor, List.filter_cons, h]

theorem sumHoursFor_cons_of_neg {tid : String} (task : DailyTask) (ts : List DailyTask)
    (h : task.topicId ≠ tid) :
    sumHoursFor tid (task :: ts) = sumHoursFor tid ts := by
  simp [sumHoursFor, List.filter_cons, h]

theorem estFor_cons_of_pos {tid : String} (t : Topic) (ts : List Topic)
    (h : t.id = tid) :
    estFor tid (t :: ts) = t.estimatedHours + estFor tid ts := by
  simp [estFor, List.filter_cons, h]

theorem estFor_cons_of_neg {tid : String} (t : Topic) (ts : List Topic)
    (h : t.id ≠ tid) :
    estFor tid (t :: ts) = estFor tid ts := by
  simp [estFor, List.filter_cons, h]

theorem allocateDay_estFor (date : Int) (tid : String) :
    ∀ (r : ℚ) (ts : List Topic),
      sumHoursFor tid (allocateDay date r ts).1
        + estFor tid (allocateDay date r ts).2.1
        + estFor tid (allocateDay date r ts).2.2 = estFor tid ts := by
  intro r ts
  induction ts generalizing r with
  | nil => simp [allocateDay, sumHoursFor, estFor]
  | cons topic rest ih =>
    by_cases h0 : 0 < r
    · by_cases h5 : 1/2 ≤ min topic.estimatedHours r
      · by_cases hz : topic.estimatedHours - min topic.estimatedHours r ≤ 0
        · simp only [allocateDay, if_pos h0, if_pos h5, if_pos hz]
          by_cases hid : topic.id = tid
          · rw [sumHoursFor_cons_of_pos (mkDailyTask topic date (min topic.estimatedHours r)) _ hid,
              estFor_cons_of_pos
                { topic with estimatedHours := topic.estimatedHours - min topic.estimatedHours r } _ hid,
              estFor_cons_of_pos topic _ hid]
            have := ih (r - min topic.estimatedHours r)
            show min topic.estimatedHours r + _ + _
              + (topic.estimatedHours - min topic.estimatedHours r + _) = _
            linarith
          · rw [sumHoursFor_cons_of_neg (mkDailyTask topic date (min topic.estimatedHours r)) _ hid,
              estFor_cons_of_neg
                { topic with estimatedHours := topic.estimatedHours - min topic.estimatedHours r } _ hid,
              estFor_cons_of_neg topic _ hid]
            exact ih (r - min topic.estimatedHours r)
        · simp only [allocateDay, if_pos h0, if_pos h5, if_neg hz]
          by_cases hid : topic.id = tid
          · rw [sumHoursFor_cons_of_pos (mkDailyTask topic date (min topic.estimatedHours r)) _ hid,
              estFor_cons_of_pos
                { topic with estimatedHours := topic.estimatedHours - min topic.estimatedHours r } _ hid,
              estFor_cons_of_pos topic _ hid]
            have := ih (r - min topic.estimatedHours r)
            show min topic.estimatedHours r + _
              + (topic.estimatedHours - min topic.estimatedHours r + _) + _ = _
            linarith
          · rw [sumHoursFor_cons_of_neg (mkDailyTask topic date (min topic.estimatedHours r)) _ hid,
              estFor_cons_of_neg
                { topic with estimatedHours := topic.estimatedHours - min topic.estimatedHours r } _ hid,
              estFor_cons_of_neg topic _ hid]
            exact ih (r - min topic.estimatedHours r)
      · simp only [allocateDay, if_pos h0, if_neg h5]
        by_cases hid : topic.id = tid
        · rw [estFor_cons_of_pos topic _ hid, estFor_cons_of_pos topic _ hid]
          have := ih r
          linarith
        · rw [estFor_cons_of_neg topic _ hid, estFor_cons_of_neg topic _ hid]
          exact ih r
    · simp only [allocateDay, if_neg h0]
      simp [sumHoursFor, estFor]

theorem allocateDay_kept_ids (date : Int) :
    ∀ (r : ℚ) (ts : List Topic),
      ((allocateDay date r ts).2.1.map Topic.id).Sublist (ts.map Topic.id) := by
  intro r ts
  induction ts generalizing r with
  | nil => simp [allocateDay]
  | cons topic rest ih =>
    by_cases h0 : 0 < r
    · by_cases h5 : 1/2 ≤ min topic.estimatedHours r
      · by_cases hz : topic.estimatedHours - min topic.estimatedHours r ≤ 0
        · simp only [allocateDay, if_pos h0, if_pos h5, if_pos hz, List.map_cons]
          exact (ih (r - min topic.estimatedHours r)).cons topic.id
        · simp only [allocateDay, if_pos h0, if_pos h5, if_neg hz, List.map_cons]
          exact (ih (r - min topic.estimatedHours r)).cons₂ topic.id
      · simp only [allocateDay, if_pos h0, if_neg h5, List.map_cons]
        exact (ih r).cons₂ topic.id
    · simp [allocateDay, if_neg h0]

theorem allocateDay_task_ids (date : Int) :
    ∀ (r : ℚ) (ts : List Topic),
      ((allocateDay date r ts).1.map DailyTask.topicId).Sublist (ts.map Topic.id) := by
  intro r ts
  induction ts generalizing r with
  | nil => simp [allocateDay]
  | cons topic rest ih =>
    by_cases h0 : 0 < r
    · by_cases h5 : 1/2 ≤ min topic.estimatedHours r
      · by_cases hz : topic.estimatedHours - min topic.estimatedHours r ≤ 0
        · simp only [allocateDay, if_pos h0, if_pos h5, if_pos hz, List.map_cons, mkDailyTask]
          exact (ih (r - min topic.estimatedHours r)).cons₂ topic.id
        · simp only [allocateDay, if_pos h0, if_pos h5, if_neg hz, List.map_cons, mkDailyTask]
          exact (ih (r - min topic.estimatedHours r)).cons₂ topic.id
      · simp only [allocateDay, if_pos h0, if_neg h5, List.map_cons]
        exact (ih r).cons topic.id
    · simp [allocateDay, if_neg h0]

/-! ### Loop-level allocator lemmas -/

theorem estFor_append (tid : String) (xs ys : List Topic) :
    estFor tid (xs ++ ys) = estFor tid xs + estFor tid ys := by
  simp [estFor, List.filter_append]

theorem generateDailyTasksAux_half (now H : ℚ) :
    ∀ (fuel c : Nat) (ts : List Topic) (task : DailyTask),
      task ∈ (generateDailyTasksAux now H fuel c ts).1 → 1/2 ≤ task.estimatedHours := by
  intro fuel
  induction fuel with
  | zero => intro c ts task h; simp [generateDailyTasksAux] at h
  | succ n ihn =>
    intro c ts task h
    match ts with
    | [] => simp [generateDailyTasksAux] at h
    | topic :: rest =>
      simp only [generateDailyTasksAux, List.mem_append] at h
      rcases h with h | h
      · exact allocateDay_half _ _ _ task h
      · exact ihn _ _ task h

theorem generateDailyTasksAux_estFor (now H : ℚ) (tid : String) :
    ∀ (fuel c : Nat) (ts : List Topic),
      sumHoursFor tid (generateDailyTasksAux now H fuel c ts).1
        + estFor tid (generateDailyTasksAux now H fuel c ts).2.1
        + estFor tid (generateDailyTasksAux now H fuel c ts).2.2 = estFor tid ts := by
  intro fuel
  induction fuel with
  | zero => intro c ts; simp [generateDailyTasksAux, sumHoursFor, estFor]
  | succ n ihn =>
    intro c ts
    match ts with
    | [] => simp [generateDailyTasksAux, sumHoursFor, estFor]
    | topic :: rest =>
      simp only [generateDailyTasksAux, sumHoursFor_append, estFor_append]
      have hday := allocateDay_estFor (⌊now⌋ + (c : Int)) tid H (topic :: rest)
      have hnext := ihn (c + 1) (allocateDay (⌊now⌋ + (c : Int)) H (topic :: rest)).2.1
      linarith

theorem generateDailyTasksAux_removed_zero (now H : ℚ) :
    ∀ (fuel c : Nat) (ts : List Topic) (t : Topic),
      t ∈ (generateDailyTasksAux now H fuel c ts).2.2 → t.estimatedHours = 0 := by
  intro fuel
  induction fuel with
  | zero => intro c ts t h; simp [generateDailyTasksAux] at h
  | succ n ihn =>
    intro c ts t h
    match ts with
    | [] => simp [generateDailyTasksAux] at h
    | topic :: rest =>
      simp only [generateDailyTasksAux, List.mem_append] at h
      rcases h with h | h
      · exact allocateDay_removed_zero _ _ _ t h
      · exact ihn _ _ t h

theorem generateDailyTasksAux_working_ids (now H : ℚ) :
    ∀ (fuel c : Nat) (ts : List Topic),
      ((generateDailyTasksAux now H fuel c ts).2.1.map Topic.id).Sublist
        (ts.map Topic.id) := by
  intro fuel
  induction fuel with
  | zero => intro c ts; simp [generateDailyTasksAux]
  | succ n ihn =>
    intro c ts
    match ts with
    | [] => simp [generateDailyTasksAux]
    | topic :: rest =>
      simp only [generateDailyTasksAux]
      exact (ihn (c + 1) _).trans (allocateDay_kept_ids _ _ _)

theorem generateDailyTasksAux_dates_ge (now H : ℚ) :
    ∀ (fuel c : Nat) (ts : List Topic) (task : DailyTask),
      task ∈ (generateDailyTasksAux now H fuel c ts).1 → ⌊now⌋ + (c : Int) ≤ task.date := by
  intro fuel
  induction fuel with
  | zero => intro c ts task h; simp [generateDailyTasksAux] at h
  | succ n ihn =>
    intro c ts task h
    match ts with
    | [] => simp [generateDailyTasksAux] at h
    | topic :: rest =>
      simp only [generateDailyTasksAux, List.mem_append] at h
      rcases h with h | h
      · exact le_of_eq (allocateDay_dates _ _ _ task h).symm
      · have := ihn (c + 1) _ task h
        push_cast at this ⊢
        linarith

/-! ### Relative-order machinery -/

theorem sublist_indexOf_lt {α : Type} [DecidableEq α] {l L : List α} (h : l.Sublist L) :
    L.Nodup → ∀ x y : α, x ∈ l → y ∈ l →
      L.indexOf x < L.indexOf y → l.indexOf x < l.indexOf y := by
  induction h with
  | slnil => intro _ x y hx _ _; cases hx
  | cons a h ih =>
    intro hnd x y hx hy hlt
    have hna := (List.nodup_cons.mp hnd).1
    have hnd2 := (List.nodup_cons.mp hnd).2
    have hxa : x ≠ a := fun he => hna (he ▸ h.subset hx)
    have hya : y ≠ a := fun he => hna (he ▸ h.subset hy)
    rw [List.indexOf_cons_ne _ (Ne.symm hxa), List.indexOf_cons_ne _ (Ne.symm hya)] at hlt
    exact ih hnd2 x y hx hy (Nat.succ_lt_succ_iff.mp hlt)
  | cons₂ a h ih =>
    intro hnd x y hx hy hlt
    have hna := (List.nodup_cons.mp hnd).1
    have hnd2 := (List.nodup_cons.mp hnd).2
    rcases List.mem_cons.mp hx with rfl | hx2
    · rcases List.mem_cons.mp hy with rfl | hy2
      · exact absurd hlt (lt_irrefl _)
      · have hyx : y ≠ x := by
          intro he
          subst he
          exact absurd hlt (lt_irrefl _)
        rw [List.indexOf_cons_self, List.indexOf_cons_ne _ (Ne.symm hyx)]
        exact Nat.succ_pos _
    · rcases List.mem_cons.mp hy with rfl | hy2
      · exfalso
        rw [List.indexOf_cons_self] at hlt
        exact Nat.not_lt_zero _ hlt
      · have hxa : x ≠ a := fun he => hna (he ▸ h.subset hx2)
        have hya : y ≠ a := fun he => hna (he ▸ h.subset hy2)
        rw [List.indexOf_cons_ne _ (Ne.symm hxa), List.indexOf_cons_ne _ (Ne.symm hya)] at hlt
        rw [List.indexOf_cons_ne _ (Ne.symm hxa), List.indexOf_cons_ne _ (Ne.symm hya)]
        exact Nat.succ_lt_succ (ih hnd2 x y hx2 hy2 (Nat.succ_lt_succ_iff.mp hlt))

theorem sorted_indexOf_lt {l : List Topic} (hs : List.Sorted topicLe l)
    (hnd : (l.map Topic.id).Nodup) {a b : Topic} (ha : a ∈ l) (hb : b ∈ l)
    (hlt : scoreTopic b < scoreTopic a) :
    (l.map Topic.id).indexOf a.id < (l.map Topic.id).indexOf b.id := by
  have hai : a.id ∈ l.map Topic.id := List.mem_map_of_mem Topic.id ha
  have hbi : b.id ∈ l.map Topic.id := List.mem_map_of_mem Topic.id hb
  have hia := List.indexOf_lt_length.mpr hai
  have hib := List.indexOf_lt_length.mpr hbi
  have hlen : (l.map Topic.id).length = l.length := List.length_map _ _
  have hia2 : (l.map Topic.id).indexOf a.id < l.length := hlen ▸ hia
  have hib2 : (l.map Topic.id).indexOf b.id < l.length := hlen ▸ hib
  have hga : (l[(l.map Topic.id).indexOf a.id]).id = a.id := by
    have h1 := List.getElem_indexOf hia
    rw [List.getElem_map Topic.id] at h1
    exact h1
  have hgb : (l[(l.map Topic.id).indexOf b.id]).id = b.id := by
    have h1 := List.getElem_indexOf hib
    rw [List.getElem_map Topic.id] at h1
    exact h1
  have hea : l[(l.map Topic.id).indexOf a.id] = a :=
    List.inj_on_of_nodup_map hnd (List.getElem_mem hia2) ha hga
  have heb : l[(l.map Topic.id).indexOf b.id] = b :=
    List.inj_on_of_nodup_map hnd (List.getElem_mem hib2) hb hgb
  by_contra hcon
  push_neg at hcon
  rcases lt_or_eq_of_le hcon with hlt2 | heq
  · have hpw := List.pairwise_iff_getElem.mp hs _ _ hib2 hia2 hlt2
    rw [hea, heb, topicLe_iff] at hpw
    exact absurd hpw (not_le.mpr hlt)
  · have hide : b.id = a.id := (List.indexOf_inj hbi hai).mp heq
    have : b = a := List.inj_on_of_nodup_map hnd hb ha hide
    rw [this] at hlt
    exact absurd hlt (lt_irrefl _)

theorem allocateDay_order (date : Int) (r : ℚ) (ts : List Topic)
    (hnd : (ts.map Topic.id).Nodup) (aId bId : String)
    (horder : (ts.map Topic.id).indexOf aId < (ts.map Topic.id).indexOf bId) :
    ∀ (i j : Nat) (hi : i < (allocateDay date r ts).1.length)
      (hj : j < (allocateDay date r ts).1.length),
      ((allocateDay date r ts).1[i]).topicId = aId →
      ((allocateDay date r ts).1[j]).topicId = bId → i < j := by
  intro i j hi hj hia hjb
  have hsub := allocateDay_task_ids date r ts
  have htnd := hsub.nodup hnd
  have hilen : i < ((allocateDay date r ts).1.map DailyTask.topicId).length := by
    rw [List.length_map]
    exact hi
  have hjlen : j < ((allocateDay date r ts).1.map DailyTask.topicId).length := by
    rw [List.length_map]
    exact hj
  have hga : ((allocateDay date r ts).1.map DailyTask.topicId)[i] = aId := by
    rw [List.getElem_map DailyTask.topicId]
    exact hia
  have hgb : ((allocateDay date r ts).1.map DailyTask.topicId)[j] = bId := by
    rw [List.getElem_map DailyTask.topicId]
    exact hjb
  have hma : aId ∈ (allocateDay date r ts).1.map DailyTask.topicId :=
    hga ▸ List.getElem_mem hilen
  have hmb : bId ∈ (allocateDay date r ts).1.map DailyTask.topicId :=
    hgb ▸ List.getElem_mem hjlen
  have hidx := sublist_indexOf_lt hsub hnd aId bId hma hmb horder
  have hiia : ((allocateDay date r ts).1.map DailyTask.topicId).indexOf aId = i := by
    have h1 := List.indexOf_getElem htnd i hilen
    rw [hga] at h1
    exact h1
  have hiib : ((allocateDay date r ts).1.map DailyTask.topicId).indexOf bId = j := by
    have h1 := List.indexOf_getElem htnd j hjlen
    rw [hgb] at h1
    exact h1
  rw [hiia, hiib] at hidx
  exact hidx

theorem generateDailyTasksAux_order (now H : ℚ) (aId bId : String) :
    ∀ (fuel c : Nat) (ts : List Topic), (ts.map Topic.id).Nodup →
      (aId ∈ ts.map Topic.id → bId ∈ ts.map Topic.id →
        (ts.map Topic.id).indexOf aId < (ts.map Topic.id).indexOf bId) →
      ∀ (i j : Nat) (ti tj : DailyTask),
        (generateDailyTasksAux now H fuel c ts).1[i]? = some ti →
        (generateDailyTasksAux now H fuel c ts).1[j]? = some tj →
        ti.topicId = aId → tj.topicId = bId → ti.date = tj.date → i < j := by
  intro fuel
  induction fuel with
  | zero =>
    intro c ts _ _ i j ti tj hti
    simp [generateDailyTasksAux] at hti
  | succ n ihn =>
    intro c ts hnd horder i j ti tj hti htj hia hjb hdate
    match ts with
    | [] => simp [generateDailyTasksAux] at hti
    | topic :: rest =>
      rw [show (generateDailyTasksAux now H (n+1) c (topic :: rest)).1
          = (allocateDay (⌊now⌋ + (c : Int)) H (topic :: rest)).1
            ++ (generateDailyTasksAux now H n (c+1)
                (allocateDay (⌊now⌋ + (c : Int)) H (topic :: rest)).2.1).1
          from by simp [generateDailyTasksAux]] at hti htj
      by_cases hiD : i < (allocateDay (⌊now⌋ + (c : Int)) H (topic :: rest)).1.length
      · by_cases hjD : j < (allocateDay (⌊now⌋ + (c : Int)) H (topic :: rest)).1.length
        · rw [List.getElem?_append, if_pos hiD] at hti
          rw [List.getElem?_append, if_pos hjD] at htj
          obtain ⟨hi2, hgi⟩ := List.getElem?_eq_some.mp hti
          obtain ⟨hj2, hgj⟩ := List.getElem?_eq_some.mp htj
          have hmD : ti ∈ (allocateDay (⌊now⌋ + (c : Int)) H (topic :: rest)).1 :=
            List.getElem?_mem hti
          have hmD2 : tj ∈ (allocateDay (⌊now⌋ + (c : Int)) H (topic :: rest)).1 :=
            List.getElem?_mem htj
          have hma : aId ∈ (topic :: rest).map Topic.id :=
            (allocateDay_task_ids _ _ _).subset
              (hia ▸ List.mem_map_of_mem DailyTask.topicId hmD)
          have hmb : bId ∈ (topic :: rest).map Topic.id :=
            (allocateDay_task_ids _ _ _).subset
              (hjb ▸ List.mem_map_of_mem DailyTask.topicId hmD2)
          refine allocateDay_order (⌊now⌋ + (c : Int)) H (topic :: rest) hnd aId bId
            (horder hma hmb) i j hi2 hj2 ?_ ?_
          · rw [hgi]; exact hia
          · rw [hgj]; exact hjb
        · exact lt_of_lt_of_le hiD (le_of_not_lt hjD)
      · have hiD2 := le_of_not_lt hiD
        rw [List.getElem?_append_right hiD2] at hti
        by_cases hjD : j < (allocateDay (⌊now⌋ + (c : Int)) H (topic :: rest)).1.length
        · exfalso
          rw [List.getElem?_append, if_pos hjD] at htj
          have hmemN := List.getElem?_mem hti
          have hdi := generateDailyTasksAux_dates_ge now H n (c+1) _ ti hmemN
          have hmemD := List.getElem?_mem htj
          have hdj := allocateDay_dates _ _ _ tj hmemD
          rw [hdate, hdj] at hdi
          push_cast at hdi
          linarith
        · have hjD2 := le_of_not_lt hjD
          rw [List.getElem?_append_right hjD2] at htj
          have hknd : (((allocateDay (⌊now⌋ + (c : Int)) H (topic :: rest)).2.1).map Topic.id).Nodup :=
            (allocateDay_kept_ids _ _ _).nodup hnd
          have horder2 : aId ∈ ((allocateDay (⌊now⌋ + (c : Int)) H (topic :: rest)).2.1).map Topic.id →
              bId ∈ ((allocateDay (⌊now⌋ + (c : Int)) H (topic :: rest)).2.1).map Topic.id →
              (((allocateDay (⌊now⌋ + (c : Int)) H (topic :: rest)).2.1).map Topic.id).indexOf aId <
                (((allocateDay (⌊now⌋ + (c : Int)) H (topic :: rest)).2.1).map Topic.id).indexOf bId := by
            intro hma hmb
            exact sublist_indexOf_lt (allocateDay_kept_ids _ _ _) hnd aId bId hma hmb
              (horder ((allocateDay_kept_ids _ _ _).subset hma)
                ((allocateDay_kept_ids _ _ _).subset hmb))
          have hres := ihn (c+1) _ hknd horder2
            (i - (allocateDay (⌊now⌋ + (c : Int)) H (topic :: rest)).1.length)
            (j - (allocateDay (⌊now⌋ + (c : Int)) H (topic :: rest)).1.length)
            ti tj hti htj hia hjb hdate
          omega

/-! ### Bridging lemmas for generateSchedule -/

theorem generateSchedule_eq_of_empty {now : ℚ} {subjects : List Subject}
    (h : incompleteTopics subjects = []) :
    generateSchedule now subjects =
      { dailyTasks := []
        totalHours := 0
        daysUntilExams := 0
        averageHoursPerDay := 0
        recommendations := ["All topics completed! Great job!"] } := by
  simp [generateSchedule, h]

theorem generateSchedule_eq_of_ne {now : ℚ} {subjects : List Subject}
    (h : incompleteTopics subjects ≠ []) :
    generateSchedule now subjects =
      { dailyTasks := (scheduleAllocation now subjects).1
        totalHours := (((scheduleAllocation now subjects).2.1
          ++ (scheduleAllocation now subjects).2.2).map Topic.estimatedHours).sum
        daysUntilExams := (calculateStudyPlan now subjects).daysUntilExams
        averageHoursPerDay := (calculateStudyPlan now subjects).averageHoursPerDay
        recommendations :=
          generateRecommendations subjects (calculateStudyPlan now subjects) } := by
  have hlen : ¬((incompleteTopics subjects).length = 0) := by
    intro hc
    exact h (List.length_eq_zero.mp hc)
  simp only [generateSchedule]
  rw [if_neg hlen]

/-- Membership of the flattened form of a subject's uncompleted topic in
the scheduler's incomplete-topic list. -/
theorem mem_incompleteTopics {subjects : List Subject} {s : Subject} {t0 : Topic}
    (hs : s ∈ subjects) (ht : t0 ∈ s.topics) (hc : t0.completed = false) :
    ({ t0 with
        subjectId := s.id
        subjectName := s.name
        estimatedHours := t0.estimatedHours * (100 - t0.progress) / 100 } : Topic)
      ∈ incompleteTopics subjects := by
  apply List.mem_filter.mpr
  constructor
  · simp only [extractTopicsFromSubjects, List.mem_flatMap]
    exact ⟨s, hs, List.mem_map_of_mem _ ht⟩
  · simp [hc]

theorem incompleteTopics_eq_nil {subjects : List Subject}
    (h : ∀ s ∈ subjects, ∀ t0 ∈ s.topics, t0.completed = true) :
    incompleteTopics subjects = [] := by
  apply List.filter_eq_nil_iff.mpr
  intro t ht
  simp only [extractTopicsFromSubjects, List.mem_flatMap, List.mem_map] at ht
  obtain ⟨s, hs, t0, ht0, rfl⟩ := ht
  simp [h s hs t0 ht0]

/-! ### Concrete scenario: one subject, exam in 10 days, topics of 3h and 1h -/

def mathT1 : Topic :=
  { id := "t1", title := "T1", estimatedHours := 3, difficulty := .hard, completed := false,
    progress := 0, subjectId := "", subjectName := "", youtubeLinks := none, notes := none }

def mathT2 : Topic :=
  { id := "t2", title := "T2", estimatedHours := 1, difficulty := .easy, completed := false,
    progress := 0, subjectId := "", subjectName := "", youtubeLinks := none, notes := none }

def mathSubject : Subject :=
  { id := "math", name := "Math", examDate := 10, topics := [mathT1, mathT2],
    dailyHours := 2, progress := 0 }

def flatT1 : Topic := { mathT1 with subjectId := "math", subjectName := "Math" }

def flatT2 : Topic := { mathT2 with subjectId := "math", subjectName := "Math" }

theorem mathIncomplete_eval : incompleteTopics [mathSubject] = [flatT1, flatT2] := by
  norm_num [incompleteTopics, extractTopicsFromSubjects, mathSubject, mathT1, mathT2,
    flatT1, flatT2]

theorem mathAllocation_eval :
    scheduleAllocation 0 [mathSubject] =
      ([mkDailyTask flatT1 0 2, mkDailyTask { flatT1 with estimatedHours := 1 } 1 1,
        mkDailyTask flatT2 1 1],
       [],
       [{ flatT1 with estimatedHours := 0 }, { flatT2 with estimatedHours := 0 }]) := by
  rw [scheduleAllocation, mathIncomplete_eval]
  norm_num [calculateStudyPlan, earliestExam, mathSubject, prioritizeTasks,
    List.insertionSort, List.orderedInsert, topicLe, compareTopics, difficultyWeights,
    flatT1, flatT2, mathT1, mathT2, generateDailyTasksAux, allocateDay]

theorem mathSchedule_eval :
    generateSchedule 0 [mathSubject] =
      { dailyTasks := [mkDailyTask flatT1 0 2,
          mkDailyTask { flatT1 with estimatedHours := 1 } 1 1, mkDailyTask flatT2 1 1]
        totalHours := 0
        daysUntilExams := 10
        averageHoursPerDay := 2
        recommendations :=
          ["Start with difficult topics when your mind is fresh, typically in the morning.",
           "Focus on revision and practice problems rather than learning new concepts.",
           "Prioritize Math - you\x27re behind schedule on this subject.",
           "Use the Pomodoro Technique: 25 minutes focused study, 5 minutes break.",
           "Review yesterday\x27s topics for 10 minutes before starting new material."] } := by
  rw [generateSchedule_eq_of_ne (by rw [mathIncomplete_eval]; simp), mathAllocation_eval]
  norm_num [calculateStudyPlan, earliestExam, mathSubject, generateRecommendations,
    mathT1, mathT2, flatT1, flatT2, estFor]
  decide

theorem generateSchedule_dailyTasks_of_ne {now : ℚ} {subjects : List Subject}
    (h : incompleteTopics subjects ≠ []) :
    (generateSchedule now subjects).dailyTasks = (scheduleAllocation now subjects).1 := by
  rw [generateSchedule_eq_of_ne h]

/-! ### Further concrete inputs -/

def doneTopic : Topic :=
  { id := "d1", title := "Done", estimatedHours := 4, difficulty := .medium, completed := true,
    progress := 100, subjectId := "", subjectName := "", youtubeLinks := none, notes := none }

def pastSubject : Subject :=
  { id := "s1", name := "History", examDate := -5, topics := [doneTopic],
    dailyHours := 2, progress := 100 }

theorem pastIncomplete_eval : incompleteTopics [pastSubject] = [] := by
  norm_num [incompleteTopics, extractTopicsFromSubjects, pastSubject, doneTopic]

def lateT : Topic :=
  { id := "l1", title := "L1", estimatedHours := 2, difficulty := .easy, completed := false,
    progress := 0, subjectId := "", subjectName := "", youtubeLinks := none, notes := none }

def lateSubject : Subject :=
  { id := "late", name := "Late", examDate := -3, topics := [lateT],
    dailyHours := 1, progress := 0 }

def flatLateT : Topic := { lateT with subjectId := "late", subjectName := "Late" }

theorem lateIncomplete_eval : incompleteTopics [lateSubject] = [flatLateT] := by
  norm_num [incompleteTopics, extractTopicsFromSubjects, lateSubject, lateT, flatLateT]

/-! ### The claims -/

/-- C1: for the fixed input of one subject "Math" with exam date 10 days
from today, dailyHours = 2, and uncompleted topics T1 (hard, 3h,
progress 0) and T2 (easy, 1h, progress 0), `generateSchedule` does emit
exactly the three claimed daily tasks (day 0: T1 for 2h; day 1: T1 for
its remaining 1h, then T2 for 1h), but the returned plan's `totalHours`
is 0, not the claimed 4: the `reduce` over `incompleteTasks` runs after
the allocator has destructively zeroed each shared topic object's
`estimatedHours`. -/
theorem claim_C1 :
    (generateSchedule 0 [mathSubject]).dailyTasks =
      [mkDailyTask flatT1 0 2, mkDailyTask { flatT1 with estimatedHours := 1 } 1 1,
        mkDailyTask flatT2 1 1]
    ∧ (generateSchedule 0 [mathSubject]).totalHours = 0
    ∧ ¬((generateSchedule 0 [mathSubject]).totalHours = 4) := by
  rw [mathSchedule_eval]
  norm_num

theorem schedule_tasks_ge_half (now : ℚ) (subjects : List Subject) :
    ∀ task ∈ (generateSchedule now subjects).dailyTasks, 1/2 ≤ task.estimatedHours := by
  intro task htask
  by_cases h : incompleteTopics subjects = []
  · rw [generateSchedule_eq_of_empty h] at htask
    simp at htask
  · rw [generateSchedule_dailyTasks_of_ne h, scheduleAllocation] at htask
    exact generateDailyTasksAux_half _ _ _ _ _ task htask

/-- C2: every daily task emitted by `generateSchedule`, on any input,
has `estimatedHours ≥ 0.5` (the minimum session floor). -/
theorem claim_C2 (now : ℚ) (subjects : List Subject) :
    ∀ task ∈ (generateSchedule now subjects).dailyTasks, 1/2 ≤ task.estimatedHours :=
  schedule_tasks_ge_half now subjects

/-- Witness for C2 at the concrete Math scenario: the first emitted task
is a member and satisfies the bound. -/
theorem claim_C2_witness :
    mkDailyTask flatT1 0 2 ∈ (generateSchedule 0 [mathSubject]).dailyTasks
    ∧ 1/2 ≤ (mkDailyTask flatT1 0 2).estimatedHours := by
  have hmem : mkDailyTask flatT1 0 2 ∈ (generateSchedule 0 [mathSubject]).dailyTasks := by
    rw [mathSchedule_eval]
    simp
  exact ⟨hmem, claim_C2 0 [mathSubject] _ hmem⟩

/-- C5 fails as stated: a subject list with an exam date whose topics
are all completed takes the short-circuit, so the plan's
`daysUntilExams` is 0 rather than `max 1 ⌈earliest − now⌉` (= 1 here),
even though the exam date is in the past. -/
theorem claim_C5_counterexample :
    ¬((generateSchedule 0 [pastSubject]).daysUntilExams
        = max 1 ⌈earliestExam [pastSubject] - 0⌉) := by
  have hceil : (⌈earliestExam [pastSubject] - 0⌉ : ℤ) = -5 := by
    rw [show earliestExam [pastSubject] - 0 = ((-5 : ℤ) : ℚ)
      from by norm_num [earliestExam, pastSubject]]
    exact Int.ceil_intCast _
  rw [generateSchedule_eq_of_empty pastIncomplete_eval, hceil]
  decide

/-- C5 (amended): for every subject list with at least one exam date and
at least one uncompleted topic, the plan's `daysUntilExams` equals
`max 1 ⌈earliestExamDate − now⌉`; in particular, for an earliest exam
date in the past it equals 1, never 0 or negative. -/
theorem claim_C5 (now : ℚ) (subjects : List Subject)
    (h : incompleteTopics subjects ≠ []) :
    (generateSchedule now subjects).daysUntilExams = max 1 ⌈earliestExam subjects - now⌉
    ∧ (earliestExam subjects < now → (generateSchedule now subjects).daysUntilExams = 1) := by
  have h1 : (generateSchedule now subjects).daysUntilExams
      = (calculateStudyPlan now subjects).daysUntilExams := by
    rw [generateSchedule_eq_of_ne h]
  constructor
  · rw [h1]
    rfl
  · intro hpast
    rw [h1]
    show max 1 ⌈earliestExam subjects - now⌉ = 1
    have hc : ⌈earliestExam subjects - now⌉ ≤ 0 :=
      Int.ceil_le.mpr (show earliestExam subjects - now ≤ ((0 : ℤ) : ℚ) from by
        push_cast
        linarith)
    rw [max_eq_left (by omega)]

/-- Witness for the amended C5: an uncompleted 2h topic with an exam
3 days in the past yields `daysUntilExams = 1`. -/
theorem claim_C5_witness :
    incompleteTopics [lateSubject] ≠ []
    ∧ earliestExam [lateSubject] < 0
    ∧ (generateSchedule 0 [lateSubject]).daysUntilExams = 1 := by
  have hne : incompleteTopics [lateSubject] ≠ [] := by
    rw [lateIncomplete_eval]
    simp
  have hpast : earliestExam [lateSubject] < 0 := by
    norm_num [earliestExam, lateSubject]
  exact ⟨hne, hpast, (claim_C5 0 [lateSubject] hne).2 hpast⟩

/-- C6 fails as stated: the celebratory recommendation the code emits is
"All topics completed! Great job!", not the claimed string
"All topics completed!". -/
theorem claim_C6_counterexample :
    ¬((generateSchedule 0 []).recommendations = ["All topics completed!"]) := by
  rw [generateSchedule_eq_of_empty (show incompleteTopics ([] : List Subject) = [] from rfl)]
  decide

/-- C6 (amended): for an empty subject list, or any subject list all of
whose topics are marked completed, `generateSchedule` returns a plan
with `dailyTasks = []`, `totalHours = 0`, and exactly one
recommendation, equal to the celebratory message
"All topics completed! Great job!". -/
theorem claim_C6 (now : ℚ) (subjects : List Subject)
    (h : subjects = [] ∨ ∀ s ∈ subjects, ∀ t0 ∈ s.topics, t0.completed = true) :
    (generateSchedule now subjects).dailyTasks = []
    ∧ (generateSchedule now subjects).totalHours = 0
    ∧ (generateSchedule now subjects).recommendations
        = ["All topics completed! Great job!"] := by
  have hemp : incompleteTopics subjects = [] := by
    rcases h with rfl | hall
    · rfl
    · exact incompleteTopics_eq_nil hall
  rw [generateSchedule_eq_of_empty hemp]
  exact ⟨rfl, rfl, rfl⟩

/-- Witness for the amended C6 at the empty subject list. -/
theorem claim_C6_witness :
    (generateSchedule 0 []).dailyTasks = []
    ∧ (generateSchedule 0 []).totalHours = 0
    ∧ (generateSchedule 0 []).recommendations = ["All topics completed! Great job!"] :=
  claim_C6 0 [] (Or.inl rfl)

/-- C10: on the no-incomplete-work short-circuit (empty subject list, or
every topic completed), the returned plan's `daysUntilExams` and
`averageHoursPerDay` are both 0, regardless of exam dates and
configured dailyHours. -/
theorem claim_C10 (now : ℚ) (subjects : List Subject)
    (h : subjects = [] ∨ ∀ s ∈ subjects, ∀ t0 ∈ s.topics, t0.completed = true) :
    (generateSchedule now subjects).daysUntilExams = 0
    ∧ (generateSchedule now subjects).averageHoursPerDay = 0 := by
  have hemp : incompleteTopics subjects = [] := by
    rcases h with rfl | hall
    · rfl
    · exact incompleteTopics_eq_nil hall
  rw [generateSchedule_eq_of_empty hemp]
  exact ⟨rfl, rfl⟩

/-- Witness for C10: a subject with a past exam date, nonzero
dailyHours, and only completed topics still gets 0 for both fields. -/
theorem claim_C10_witness :
    (∀ s ∈ [pastSubject], ∀ t0 ∈ s.topics, t0.completed = true)
    ∧ (generateSchedule 0 [pastSubject]).daysUntilExams = 0
    ∧ (generateSchedule 0 [pastSubject]).averageHoursPerDay = 0 := by
  have hall : ∀ s ∈ [pastSubject], ∀ t0 ∈ s.topics, t0.completed = true := by
    intro s hs t0 ht0
    simp only [List.mem_singleton] at hs
    subst hs
    simp only [pastSubject, List.mem_singleton] at ht0
    subst ht0
    rfl
  have := claim_C10 0 [pastSubject] (Or.inr hall)
  exact ⟨hall, this.1, this.2⟩

/-! ### Spaced repetition -/

theorem calculateReviewSchedule_foldl (now : ℚ) (topics : List Topic) :
    ∀ acc : List DailyTask,
      topics.foldl
        (fun reviewTasks topic => reviewTasks ++ reviewIntervals.map (mkReviewTask ⌊now⌋ topic))
        acc
      = acc ++ topics.flatMap (fun t => reviewIntervals.map (mkReviewTask ⌊now⌋ t)) := by
  induction topics with
  | nil => intro acc; simp
  | cons t ts ih =>
    intro acc
    simp only [List.foldl_cons, List.flatMap_cons, ih, List.append_assoc]

theorem calculateReviewSchedule_eq (now : ℚ) (topics : List Topic) :
    calculateReviewSchedule now topics
      = topics.flatMap (fun t => reviewIntervals.map (mkReviewTask ⌊now⌋ t)) := by
  rw [calculateReviewSchedule, calculateReviewSchedule_foldl]
  simp

/-- C9: for a list of N completed topics, `calculateReviewSchedule`
returns exactly 5×N review tasks: one per topic per offset in
\x7b1, 3, 7, 14, 30\x7d days from the call date, each with
`estimatedHours = max(0.25, 0.1 × the topic's estimatedHours)` (hence
always ≥ 0.25), title "Review: " plus the original title, and an
identifier built only from the topic id and the offset. -/
theorem claim_C9 (now : ℚ) (completedTopics : List Topic) :
    (calculateReviewSchedule now completedTopics).length = 5 * completedTopics.length
    ∧ calculateReviewSchedule now completedTopics
        = completedTopics.flatMap (fun t => ([1, 3, 7, 14, 30] : List Int).map fun interval =>
            { id := "review-" ++ t.id ++ "-" ++ toString interval
              date := ⌊now⌋ + interval
              topicId := t.id
              topicTitle := "Review: " ++ t.title
              subjectName := t.subjectName
              estimatedHours := max (1/4) (t.estimatedHours * (1/10))
              difficulty := t.difficulty
              completed := false
              actualHours := none
              youtubeLinks := t.youtubeLinks
              notes := t.notes })
    ∧ ∀ task ∈ calculateReviewSchedule now completedTopics, 1/4 ≤ task.estimatedHours := by
  refine ⟨?_, ?_, ?_⟩
  · rw [calculateReviewSchedule_eq, List.length_flatMap]
    induction completedTopics with
    | nil => rfl
    | cons t ts ih =>
      simp only [List.map_cons, List.sum_cons, ih, List.length_cons]
      simp [reviewIntervals]
      ring
  · rw [calculateReviewSchedule_eq]
    rfl
  · intro task htask
    rw [calculateReviewSchedule_eq] at htask
    simp only [List.mem_flatMap, List.mem_map] at htask
    obtain ⟨t, _, interval, _, rfl⟩ := htask
    exact le_max_left _ _

def revTopic : Topic :=
  { id := "r1", title := "R1", estimatedHours := 2, difficulty := .medium, completed := true,
    progress := 100, subjectId := "s", subjectName := "S", youtubeLinks := none, notes := none }

/-- Witness for C9: the day-1 review task of a concrete completed topic
is in the output, with `estimatedHours = max(0.25, 0.2) = 0.25`. -/
theorem claim_C9_witness :
    mkReviewTask 0 revTopic 1 ∈ calculateReviewSchedule 0 [revTopic]
    ∧ 1/4 ≤ (mkReviewTask 0 revTopic 1).estimatedHours := by
  have hmem : mkReviewTask 0 revTopic 1 ∈ calculateReviewSchedule 0 [revTopic] := by
    rw [calculateReviewSchedule_eq]
    simp only [List.flatMap_cons, List.flatMap_nil, List.append_nil, List.mem_map,
      reviewIntervals]
    refine ⟨1, by simp, ?_⟩
    norm_num
  exact ⟨hmem, (claim_C9 0 [revTopic]).2.2 _ hmem⟩

/-! ### Rescheduling lemmas -/

theorem reschedule_dailyTasks (now : ℚ) (plan : SchedulePlan) (missed : List DailyTask) :
    (rescheduleAfterMissedTasks now plan missed).dailyTasks
      = if (futureTasks ⌊now⌋ (activeTasks plan missed)).length > 0 then
          (activeTasks plan missed).map fun task =>
            if task.date > ⌊now⌋ then
              { task with estimatedHours := task.estimatedHours
                + (missed.map DailyTask.estimatedHours).sum
                  / ((futureTasks ⌊now⌋ (activeTasks plan missed)).length : ℚ) }
            else task
        else activeTasks plan missed := rfl

theorem filter_map_of_pred_eq (q : DailyTask → Bool) (f : DailyTask → DailyTask)
    (hq : ∀ t, q (f t) = q t) (l : List DailyTask) :
    (l.map f).filter q = (l.filter q).map f := by
  induction l with
  | nil => rfl
  | cons a l ih =>
    simp only [List.map_cons, List.filter_cons, hq a]
    by_cases h : q a = true
    · rw [if_pos h, if_pos h, List.map_cons, ih]
    · rw [if_neg h, if_neg h, ih]

theorem sum_map_est_add (c : ℚ) (l : List DailyTask) :
    ((l.map fun task => { task with estimatedHours := task.estimatedHours + c }).map
      DailyTask.estimatedHours).sum
    = (l.map DailyTask.estimatedHours).sum + l.length * c := by
  induction l with
  | nil => simp
  | cons a l ih =>
    simp only [List.map_cons, List.sum_cons, ih, List.length_cons]
    push_cast
    ring

/-- C7: when at least one remaining task is dated strictly after today,
rescheduling adds exactly `totalMissedHours / count(futureTasks)` to
every future task, so the future tasks' total hours grow by exactly the
sum of the missed tasks' `estimatedHours`; when no future task exists,
the missed hours are dropped and the (total) function returns the
filtered task list unchanged. -/
theorem claim_C7 (now : ℚ) (plan : SchedulePlan) (missed : List DailyTask) :
    (futureTasks ⌊now⌋ (activeTasks plan missed) ≠ [] →
      futureTasks ⌊now⌋ (rescheduleAfterMissedTasks now plan missed).dailyTasks
        = (futureTasks ⌊now⌋ (activeTasks plan missed)).map (fun task =>
            { task with estimatedHours := task.estimatedHours
              + (missed.map DailyTask.estimatedHours).sum
                / ((futureTasks ⌊now⌋ (activeTasks plan missed)).length : ℚ) })
      ∧ ((futureTasks ⌊now⌋ (rescheduleAfterMissedTasks now plan missed).dailyTasks).map
            DailyTask.estimatedHours).sum
          = ((futureTasks ⌊now⌋ (activeTasks plan missed)).map DailyTask.estimatedHours).sum
            + (missed.map DailyTask.estimatedHours).sum)
    ∧ (futureTasks ⌊now⌋ (activeTasks plan missed) = [] →
        (rescheduleAfterMissedTasks now plan missed).dailyTasks
          = activeTasks plan missed) := by
  constructor
  · intro hne
    have hlen : 0 < (futureTasks ⌊now⌋ (activeTasks plan missed)).length :=
      List.length_pos.mpr hne
    have hq : ∀ t : DailyTask,
        (decide ((if t.date > ⌊now⌋ then
            ({ t with estimatedHours := t.estimatedHours
              + (missed.map DailyTask.estimatedHours).sum
                / ((futureTasks ⌊now⌋ (activeTasks plan missed)).length : ℚ) } : DailyTask)
          else t).date > ⌊now⌋) : Bool)
          = decide (t.date > ⌊now⌋) := by
      intro t
      by_cases h : t.date > ⌊now⌋
      · rw [if_pos h]
      · rw [if_neg h]
    have hmapeq : futureTasks ⌊now⌋ (rescheduleAfterMissedTasks now plan missed).dailyTasks
        = (futureTasks ⌊now⌋ (activeTasks plan missed)).map (fun task =>
            { task with estimatedHours := task.estimatedHours
              + (missed.map DailyTask.estimatedHours).sum
                / ((futureTasks ⌊now⌋ (activeTasks plan missed)).length : ℚ) }) := by
      rw [reschedule_dailyTasks, if_pos hlen]
      show (List.map _ (activeTasks plan missed)).filter _ = _
      rw [filter_map_of_pred_eq _ _ hq]
      apply List.map_congr_left
      intro t ht
      have hmem := List.of_mem_filter ht
      rw [if_pos (of_decide_eq_true hmem)]
    refine ⟨hmapeq, ?_⟩
    rw [hmapeq, sum_map_est_add]
    have hn0 : (((futureTasks ⌊now⌋ (activeTasks plan missed)).length : ℚ)) ≠ 0 := by
      exact_mod_cast Nat.pos_iff_ne_zero.mp hlen
    have hcancel : (((futureTasks ⌊now⌋ (activeTasks plan missed)).length : ℚ))
        * ((missed.map DailyTask.estimatedHours).sum
            / ((futureTasks ⌊now⌋ (activeTasks plan missed)).length : ℚ))
        = (missed.map DailyTask.estimatedHours).sum := by
      field_simp
    rw [hcancel]
  · intro hfe
    rw [reschedule_dailyTasks, if_neg (by simp [hfe])]

/-- C8: rescheduling carries `totalHours`, `daysUntilExams` and
`averageHoursPerDay` over from the input plan unchanged, and every
remaining task dated today or earlier keeps its `estimatedHours`
unchanged: the non-future part of the rescheduled task list is exactly
the missed-filtered original task list. -/
theorem claim_C8 (now : ℚ) (plan : SchedulePlan) (missed : List DailyTask) :
    (rescheduleAfterMissedTasks now plan missed).totalHours = plan.totalHours
    ∧ (rescheduleAfterMissedTasks now plan missed).daysUntilExams = plan.daysUntilExams
    ∧ (rescheduleAfterMissedTasks now plan missed).averageHoursPerDay
        = plan.averageHoursPerDay
    ∧ (rescheduleAfterMissedTasks now plan missed).dailyTasks.filter
        (fun task => decide (task.date ≤ ⌊now⌋))
      = (activeTasks plan missed).filter (fun task => decide (task.date ≤ ⌊now⌋)) := by
  refine ⟨rfl, rfl, rfl, ?_⟩
  rw [reschedule_dailyTasks]
  by_cases h : 0 < (futureTasks ⌊now⌋ (activeTasks plan missed)).length
  · rw [if_pos h]
    have hq : ∀ t : DailyTask,
        (decide ((if t.date > ⌊now⌋ then
            ({ t with estimatedHours := t.estimatedHours
              + (missed.map DailyTask.estimatedHours).sum
                / ((futureTasks ⌊now⌋ (activeTasks plan missed)).length : ℚ) } : DailyTask)
          else t).date ≤ ⌊now⌋) : Bool)
          = decide (t.date ≤ ⌊now⌋) := by
      intro t
      by_cases hd : t.date > ⌊now⌋
      · rw [if_pos hd]
      · rw [if_neg hd]
    rw [filter_map_of_pred_eq _ _ hq]
    have hid : ∀ t ∈ (activeTasks plan missed).filter
        (fun task => decide (task.date ≤ ⌊now⌋)),
        (if t.date > ⌊now⌋ then
          ({ t with estimatedHours := t.estimatedHours
            + (missed.map DailyTask.estimatedHours).sum
              / ((futureTasks ⌊now⌋ (activeTasks plan missed)).length : ℚ) } : DailyTask)
        else t) = t := by
      intro t ht
      have hmem := List.of_mem_filter ht
      rw [if_neg (not_lt.mpr (of_decide_eq_true hmem))]
    rw [List.map_congr_left hid, List.map_id']
  · rw [if_neg h]

/-- C3: for every topic the scheduler allocates fully within the horizon
(it leaves the allocator's working list), the emitted daily-task hours
for that topic sum to exactly the topic's flattened remaining hours
`estimatedHours × (100 − progress)/100` (exact over ℚ, hence within any
floating-point tolerance), and once that sum has been reached no further
task for the topic appears in the sequence. -/
theorem claim_C3 (now : ℚ) (subjects : List Subject) (s : Subject) (t0 : Topic)
    (hnd : ((incompleteTopics subjects).map Topic.id).Nodup)
    (hs : s ∈ subjects) (ht : t0 ∈ s.topics) (hc : t0.completed = false)
    (hfull : t0.id ∉ (scheduleAllocation now subjects).2.1.map Topic.id) :
    sumHoursFor t0.id (generateSchedule now subjects).dailyTasks
        = t0.estimatedHours * (100 - t0.progress) / 100
    ∧ ∀ xs ys, (generateSchedule now subjects).dailyTasks = xs ++ ys →
        sumHoursFor t0.id xs = t0.estimatedHours * (100 - t0.progress) / 100 →
        ∀ task ∈ ys, task.topicId ≠ t0.id := by
  have hmem : ({ t0 with
      subjectId := s.id
      subjectName := s.name
      estimatedHours := t0.estimatedHours * (100 - t0.progress) / 100 } : Topic)
        ∈ incompleteTopics subjects := mem_incompleteTopics hs ht hc
  have hne : incompleteTopics subjects ≠ [] := List.ne_nil_of_mem hmem
  have hndp : ((prioritizeTasks (incompleteTopics subjects)).map Topic.id).Nodup :=
    ((perm_prioritizeTasks _).map Topic.id).nodup_iff.mpr hnd
  have hmemp := (perm_prioritizeTasks (incompleteTopics subjects)).mem_iff.mpr hmem
  have hestp : estFor t0.id (prioritizeTasks (incompleteTopics subjects))
      = t0.estimatedHours * (100 - t0.progress) / 100 :=
    estFor_eq_of_mem hndp hmemp
  have hcons : sumHoursFor t0.id (scheduleAllocation now subjects).1
      + estFor t0.id (scheduleAllocation now subjects).2.1
      + estFor t0.id (scheduleAllocation now subjects).2.2
      = estFor t0.id (prioritizeTasks (incompleteTopics subjects)) :=
    generateDailyTasksAux_estFor now (calculateStudyPlan now subjects).totalDailyHours t0.id
      (calculateStudyPlan now subjects).daysUntilExams.toNat 0
      (prioritizeTasks (incompleteTopics subjects))
  have hwork : estFor t0.id (scheduleAllocation now subjects).2.1 = 0 :=
    estFor_eq_zero_of_not_mem hfull
  have hrem : estFor t0.id (scheduleAllocation now subjects).2.2 = 0 :=
    estFor_eq_zero_of_all_zero fun t htm =>
      generateDailyTasksAux_removed_zero now
        (calculateStudyPlan now subjects).totalDailyHours
        (calculateStudyPlan now subjects).daysUntilExams.toNat 0
        (prioritizeTasks (incompleteTopics subjects)) t htm
  have hsum : sumHoursFor t0.id (generateSchedule now subjects).dailyTasks
      = t0.estimatedHours * (100 - t0.progress) / 100 := by
    rw [generateSchedule_dailyTasks_of_ne hne]
    rw [hwork, hrem, hestp] at hcons
    linarith
  refine ⟨hsum, ?_⟩
  intro xs ys hsplit hxs
  have hys : sumHoursFor t0.id ys = 0 := by
    have h1 : sumHoursFor t0.id (xs ++ ys)
        = t0.estimatedHours * (100 - t0.progress) / 100 := by
      rw [← hsplit]
      exact hsum
    rw [sumHoursFor_append, hxs] at h1
    linarith
  intro task htask heq
  have htmem : task ∈ (generateSchedule now subjects).dailyTasks := by
    rw [hsplit]
    exact List.mem_append_right xs htask
  have hhalf := schedule_tasks_ge_half now subjects task htmem
  have hfmem : task ∈ ys.filter (fun t => t.topicId == t0.id) :=
    List.mem_filter.mpr ⟨htask, by simp [heq]⟩
  have hpos : 0 < sumHoursFor t0.id ys := by
    apply List.sum_pos
    · intro x hx
      simp only [List.mem_map] at hx
      obtain ⟨t, htf, rfl⟩ := hx
      have := schedule_tasks_ge_half now subjects t (by
        rw [hsplit]
        exact List.mem_append_right xs (List.mem_of_mem_filter htf))
      linarith
    · intro hnil
      rw [List.map_eq_nil] at hnil
      rw [hnil] at hfmem
      cases hfmem
  linarith

/-- Witness for C3 at the concrete Math scenario: topic T1 is fully
allocated and its tasks sum to 3 hours. -/
theorem claim_C3_witness :
    ((incompleteTopics [mathSubject]).map Topic.id).Nodup
    ∧ mathT1.id ∉ (scheduleAllocation 0 [mathSubject]).2.1.map Topic.id
    ∧ sumHoursFor mathT1.id (generateSchedule 0 [mathSubject]).dailyTasks
        = mathT1.estimatedHours * (100 - mathT1.progress) / 100 := by
  have hnd : ((incompleteTopics [mathSubject]).map Topic.id).Nodup := by
    rw [mathIncomplete_eval]
    simp [flatT1, flatT2, mathT1, mathT2]
  have hfull : mathT1.id ∉ (scheduleAllocation 0 [mathSubject]).2.1.map Topic.id := by
    rw [mathAllocation_eval]
    simp
  exact ⟨hnd, hfull,
    (claim_C3 0 [mathSubject] mathSubject mathT1 hnd (by simp) (by simp [mathSubject])
      rfl hfull).1⟩

/-- C4: for two uncompleted topics with equal remaining hours and the
harder one carrying the larger difficulty weight (distinct ids), the
prioritizer places the harder topic strictly earlier, and in the emitted
task sequence any task of the harder topic comes before any task of the
easier topic that carries the same date. -/
theorem claim_C4 (now : ℚ) (subjects : List Subject) (a b : Topic)
    (hnd : ((incompleteTopics subjects).map Topic.id).Nodup)
    (ha : a ∈ incompleteTopics subjects) (hb : b ∈ incompleteTopics subjects)
    (hw : difficultyWeights b.difficulty < difficultyWeights a.difficulty)
    (he : a.estimatedHours = b.estimatedHours) :
    ((prioritizeTasks (incompleteTopics subjects)).map Topic.id).indexOf a.id
        < ((prioritizeTasks (incompleteTopics subjects)).map Topic.id).indexOf b.id
    ∧ ∀ (i j : Nat) (ti tj : DailyTask),
        (generateSchedule now subjects).dailyTasks[i]? = some ti →
        (generateSchedule now subjects).dailyTasks[j]? = some tj →
        ti.topicId = a.id → tj.topicId = b.id → ti.date = tj.date → i < j := by
  have hne : incompleteTopics subjects ≠ [] := List.ne_nil_of_mem ha
  have hndp : ((prioritizeTasks (incompleteTopics subjects)).map Topic.id).Nodup :=
    ((perm_prioritizeTasks _).map Topic.id).nodup_iff.mpr hnd
  have hmap : a ∈ prioritizeTasks (incompleteTopics subjects) :=
    (perm_prioritizeTasks _).mem_iff.mpr ha
  have hmbp : b ∈ prioritizeTasks (incompleteTopics subjects) :=
    (perm_prioritizeTasks _).mem_iff.mpr hb
  have hscore : scoreTopic b < scoreTopic a := by
    simp only [scoreTopic]
    linarith
  have hidx := sorted_indexOf_lt (sorted_prioritizeTasks _) hndp hmap hmbp hscore
  refine ⟨hidx, ?_⟩
  intro i j ti tj hti htj hia hjb hdate
  rw [generateSchedule_dailyTasks_of_ne hne, scheduleAllocation] at hti htj
  exact generateDailyTasksAux_order now (calculateStudyPlan now subjects).totalDailyHours
    a.id b.id (calculateStudyPlan now subjects).daysUntilExams.toNat 0
    (prioritizeTasks (incompleteTopics subjects)) hndp (fun _ _ => hidx)
    i j ti tj hti htj hia hjb hdate

/-! ### Concrete scenario for C4: equal hours, different difficulties -/

def eqEasy : Topic :=
  { id := "e1", title := "E", estimatedHours := 1, difficulty := .easy, completed := false,
    progress := 0, subjectId := "", subjectName := "", youtubeLinks := none, notes := none }

def eqHard : Topic :=
  { id := "h1", title := "H", estimatedHours := 1, difficulty := .hard, completed := false,
    progress := 0, subjectId := "", subjectName := "", youtubeLinks := none, notes := none }

def eqSubject : Subject :=
  { id := "eq", name := "EQ", examDate := 3, topics := [eqEasy, eqHard],
    dailyHours := 2, progress := 50 }

def flatEqEasy : Topic := { eqEasy with subjectId := "eq", subjectName := "EQ" }

def flatEqHard : Topic := { eqHard with subjectId := "eq", subjectName := "EQ" }

theorem eqIncomplete_eval : incompleteTopics [eqSubject] = [flatEqEasy, flatEqHard] := by
  norm_num [incompleteTopics, extractTopicsFromSubjects, eqSubject, eqEasy, eqHard,
    flatEqEasy, flatEqHard]

theorem eqTasks_eval :
    (generateSchedule 0 [eqSubject]).dailyTasks
      = [mkDailyTask flatEqHard 0 1, mkDailyTask flatEqEasy 0 1] := by
  rw [generateSchedule_dailyTasks_of_ne (by rw [eqIncomplete_eval]; simp),
    scheduleAllocation, eqIncomplete_eval]
  norm_num [calculateStudyPlan, earliestExam, eqSubject, prioritizeTasks,
    List.insertionSort, List.orderedInsert, topicLe, compareTopics, difficultyWeights,
    flatEqEasy, flatEqHard, eqEasy, eqHard, generateDailyTasksAux, allocateDay]

/-- Witness for C4: in the equal-hours scenario the hard topic's task is
emitted at index 0 and the easy topic's task at index 1 of the same day. -/
theorem claim_C4_witness :
    (generateSchedule 0 [eqSubject]).dailyTasks[0]? = some (mkDailyTask flatEqHard 0 1)
    ∧ (generateSchedule 0 [eqSubject]).dailyTasks[1]? = some (mkDailyTask flatEqEasy 0 1)
    ∧ ((prioritizeTasks (incompleteTopics [eqSubject])).map Topic.id).indexOf flatEqHard.id
        < ((prioritizeTasks (incompleteTopics [eqSubject])).map Topic.id).indexOf flatEqEasy.id
    ∧ (0 : Nat) < 1 := by
  have h0 : (generateSchedule 0 [eqSubject]).dailyTasks[0]?
      = some (mkDailyTask flatEqHard 0 1) := by
    rw [eqTasks_eval]
    rfl
  have h1 : (generateSchedule 0 [eqSubject]).dailyTasks[1]?
      = some (mkDailyTask flatEqEasy 0 1) := by
    rw [eqTasks_eval]
    rfl
  have hnd : ((incompleteTopics [eqSubject]).map Topic.id).Nodup := by
    rw [eqIncomplete_eval]
    simp [flatEqEasy, flatEqHard, eqEasy, eqHard]
  have hmemE : flatEqEasy ∈ incompleteTopics [eqSubject] := by
    rw [eqIncomplete_eval]
    simp
  have hmemH : flatEqHard ∈ incompleteTopics [eqSubject] := by
    rw [eqIncomplete_eval]
    simp
  have hw : difficultyWeights flatEqEasy.difficulty < difficultyWeights flatEqHard.difficulty := by
    norm_num [difficultyWeights, flatEqEasy, flatEqHard, eqEasy, eqHard]
  have happ := claim_C4 0 [eqSubject] flatEqHard flatEqEasy hnd hmemH hmemE hw rfl
  exact ⟨h0, h1, happ.1, happ.2 0 1 _ _ h0 h1 rfl rfl rfl⟩

/-! ### Concrete scenario for C7: one missed task, one future task -/

def taskA : DailyTask :=
  { id := "a", date := 1, topicId := "ta", topicTitle := "A", subjectName := "S",
    estimatedHours := 1, difficulty := .easy, completed := false, actualHours := none,
    youtubeLinks := none, notes := none }

def taskB : DailyTask :=
  { id := "b", date := 0, topicId := "tb", topicTitle := "B", subjectName := "S",
    estimatedHours := 2, difficulty := .medium, completed := false, actualHours := none,
    youtubeLinks := none, notes := none }

def taskM : DailyTask :=
  { id := "m", date := 0, topicId := "tm", topicTitle := "M", subjectName := "S",
    estimatedHours := 3, difficulty := .hard, completed := false, actualHours := none,
    youtubeLinks := none, notes := none }

def basePlan : SchedulePlan :=
  { dailyTasks := [taskM, taskB, taskA], totalHours := 6, daysUntilExams := 4,
    averageHoursPerDay := 2, recommendations := ["r1", "r2", "r3"] }

theorem baseFuture_eval : futureTasks ⌊(0 : ℚ)⌋ (activeTasks basePlan [taskM]) = [taskA] := by
  norm_num [futureTasks, activeTasks, basePlan, taskA, taskB, taskM]
  decide

/-- Witness for C7: missing the 3h task redistributes exactly 3h onto
the single future task. -/
theorem claim_C7_witness :
    futureTasks ⌊(0 : ℚ)⌋ (activeTasks basePlan [taskM]) ≠ []
    ∧ ((futureTasks ⌊(0 : ℚ)⌋ (rescheduleAfterMissedTasks 0 basePlan [taskM]).dailyTasks).map
          DailyTask.estimatedHours).sum
        = ((futureTasks ⌊(0 : ℚ)⌋ (activeTasks basePlan [taskM])).map
            DailyTask.estimatedHours).sum
          + (([taskM] : List DailyTask).map DailyTask.estimatedHours).sum := by
  have hne : futureTasks ⌊(0 : ℚ)⌋ (activeTasks basePlan [taskM]) ≠ [] := by
    rw [baseFuture_eval]
    simp
  exact ⟨hne, ((claim_C7 0 basePlan [taskM]).1 hne).2⟩
